import Mathlib

/-!
Shallow embedding of the LogStriker core (src/logstriker.py): the Record data
model (`LogEntry`), the line-oriented parsing state machine
(`parse_beacon_log` / `parse_system_log`), the aggregation operations
(`aggregate_by_ip`, `aggregate_by_ip_and_date`), and the serializer
(`LogEntry.format`, `write_complete_logs`, `write_daily_logs`).

Modelling notes:
* Python strings are modelled as `String` / `List Char`.  The regex character
  classes `\d` and `\s` and the methods `str.isdigit` / `str.strip` are
  modelled over their ASCII meaning.
* Console warnings (`print("[!] Warning: ...")`) are modelled as an explicit
  list of `Warning` values returned alongside the parsed entries, in print
  order.
* The wall clock (`datetime.now().year`) is modelled as an explicit
  `currentYear` argument.
* File-system writes are modelled by a `writeOk` oracle mapping an output
  file name to success or failure (`IOError`); the writers return the list of
  successfully written (name, contents) pairs, the list of reported failing
  names, and the `files_written` counter.
-/

namespace LogStriker

/-- The characters `str.splitlines` treats as line boundaries. -/
def isLineBreak (c : Char) : Bool :=
  c == '\n' || c == '\r' || c == '\x0b' || c == '\x0c' ||
  c == '\x1c' || c == '\x1d' || c == '\x1e' || c == '\u0085' ||
  c == '\u2028' || c == '\u2029'

/-- ASCII whitespace as matched by the regex class `\s` and `str.strip`. -/
def pyIsSpace (c : Char) : Bool :=
  c == ' ' || c == '\t' || c == '\n' || c == '\r' || c == '\x0b' || c == '\x0c'

/-- Worker for `splitlines`: `acc` holds the (reversed) current line and
`afterCR` records whether the previous character was a `\r` whose line was
just emitted, so that the `\n` of a `\r\n` pair is swallowed. -/
def splitlinesAux : List Char → Bool → List Char → List (List Char)
  | [], _, acc => if acc.isEmpty then [] else [acc.reverse]
  | c :: rest, afterCR, acc =>
    if afterCR && c == '\n' then splitlinesAux rest false acc
    else if isLineBreak c then
      acc.reverse :: splitlinesAux rest (c == '\r') []
    else splitlinesAux rest false (c :: acc)

/-- Python `str.splitlines()` (keepends=False). -/
def splitlines (s : List Char) : List (List Char) := splitlinesAux s false []

/-- Value of an ASCII digit character. -/
def digitVal (c : Char) : Nat := c.toNat - 48

/-- Integer value of a two-ASCII-digit group, i.e. `int` on a `\d{2}` match. -/
def twoDigitVal (a b : Char) : Nat := 10 * digitVal a + digitVal b

/-- The data captured by a match of `TIMESTAMP_PATTERN`
`^(\d{2}/\d{2})\s+(\d{2}:\d{2}:\d{2})\s+UTC\s+\[([^\]]+)\]\s+(.*)$`,
with the month/day/hour/minute/second groups already converted by `int`. -/
structure Header where
  month : Nat
  day : Nat
  hour : Nat
  minute : Nat
  second : Nat
  kind : List Char
  rest : List Char
deriving DecidableEq

/-- Match `\d{2}`: two ASCII digit characters. -/
def matchTwoDigits : List Char → Option (Char × Char × List Char)
  | a :: b :: r => if a.isDigit && b.isDigit then some (a, b, r) else none
  | _ => none

/-- Match one literal character. -/
def expectChar (c : Char) : List Char → Option (List Char)
  | d :: r => if d == c then some r else none
  | [] => none

/-- Match `\s+` (greedy, followed in the pattern by a non-`\s` item). -/
def expectSpaces1 : List Char → Option (List Char)
  | c :: r => if pyIsSpace c then some (r.dropWhile pyIsSpace) else none
  | [] => none

/-- Match group 1, `(\d{2}/\d{2})`, returning the two `int`-converted
components (`mm_dd.split('/')`) and the remaining characters. -/
def matchDatePart (line : List Char) : Option (Nat × Nat × List Char) :=
  match matchTwoDigits line with
  | none => none
  | some (m1, m2, r1) =>
    match expectChar '/' r1 with
    | none => none
    | some r2 =>
      match matchTwoDigits r2 with
      | none => none
      | some (d1, d2, r3) => some (twoDigitVal m1 m2, twoDigitVal d1 d2, r3)

/-- Match group 2, `(\d{2}:\d{2}:\d{2})`, returning the three
`int`-converted components (`time_str.split(':')`) and the remainder. -/
def matchTimePart (line : List Char) : Option (Nat × Nat × Nat × List Char) :=
  match matchTwoDigits line with
  | none => none
  | some (h1, h2, r1) =>
    match expectChar ':' r1 with
    | none => none
    | some r2 =>
      match matchTwoDigits r2 with
      | none => none
      | some (n1, n2, r3) =>
        match expectChar ':' r3 with
        | none => none
        | some r4 =>
          match matchTwoDigits r4 with
          | none => none
          | some (s1, s2, r5) =>
            some (twoDigitVal h1 h2, twoDigitVal n1 n2, twoDigitVal s1 s2, r5)

/-- Match `\s+UTC\s+`. -/
def matchUTCPart (line : List Char) : Option (List Char) :=
  match expectSpaces1 line with
  | none => none
  | some r1 =>
    match expectChar 'U' r1 with
    | none => none
    | some r2 =>
      match expectChar 'T' r2 with
      | none => none
      | some r3 =>
        match expectChar 'C' r3 with
        | none => none
        | some r4 => expectSpaces1 r4

/-- Match `\[([^\]]+)\]\s+(.*)$`: the bracketed kind group and the trailing
free-text group. -/
def matchKindPart (line : List Char) : Option (List Char × List Char) :=
  match expectChar '[' line with
  | none => none
  | some r1 =>
    let kind := r1.takeWhile (fun c => c != ']')
    if kind.isEmpty then none
    else
      match expectChar ']' (r1.dropWhile (fun c => c != ']')) with
      | none => none
      | some r2 =>
        match expectSpaces1 r2 with
        | none => none
        | some r3 => some (kind, r3)

/-- `LogParser.TIMESTAMP_PATTERN.match(line)`: deterministic matcher for
`^(\d{2}/\d{2})\s+(\d{2}:\d{2}:\d{2})\s+UTC\s+\[([^\]]+)\]\s+(.*)$`. -/
def matchHeader (line : List Char) : Option Header :=
  match matchDatePart line with
  | none => none
  | some (mo, d, r1) =>
    match expectSpaces1 r1 with
    | none => none
    | some r2 =>
      match matchTimePart r2 with
      | none => none
      | some (h, mi, s, r3) =>
        match matchUTCPart r3 with
        | none => none
        | some r4 =>
          match matchKindPart r4 with
          | none => none
          | some (kind, rest) => some ⟨mo, d, h, mi, s, kind, rest⟩

/-- A Python `datetime` value (UTC; the tzinfo is constant and omitted). -/
structure Timestamp where
  year : Nat
  month : Nat
  day : Nat
  hour : Nat
  minute : Nat
  second : Nat
deriving DecidableEq

/-- Gregorian leap-year rule, as used by `datetime`. -/
def isLeapYear (y : Nat) : Bool := (y % 4 == 0 && y % 100 != 0) || y % 400 == 0

/-- Number of days in a month, as validated by the `datetime` constructor. -/
def daysInMonth (y m : Nat) : Nat :=
  if m = 2 then (if isLeapYear y then 29 else 28)
  else if m = 4 ∨ m = 6 ∨ m = 9 ∨ m = 11 then 30
  else 31

/-- The `datetime(year, month, day, hour, minute, second)` constructor:
`some` on in-range components, `none` when it raises `ValueError`. -/
def mkDatetime (y mo d h mi s : Nat) : Option Timestamp :=
  if 1 ≤ y ∧ y ≤ 9999 ∧ 1 ≤ mo ∧ mo ≤ 12 ∧ 1 ≤ d ∧ d ≤ daysInMonth y mo
     ∧ h ≤ 23 ∧ mi ≤ 59 ∧ s ≤ 59
  then some ⟨y, mo, d, h, mi, s⟩ else none

/-- The `LogEntry` dataclass (a Record). -/
structure LogEntry where
  timestamp : Timestamp
  entry_type : String
  content : List String
  source_file : String
  ip_address : Option String
  date_folder : Option String
deriving DecidableEq

/-- `0`-`9` as a character (used to model `strftime` zero-padding). -/
def digitChar : Nat → Char
  | 0 => '0' | 1 => '1' | 2 => '2' | 3 => '3' | 4 => '4'
  | 5 => '5' | 6 => '6' | 7 => '7' | 8 => '8' | _ => '9'

/-- Two-digit zero-padded rendering of `n < 100`, as in `strftime` `%m` etc. -/
def pad2 (n : Nat) : List Char := [digitChar (n / 10), digitChar (n % 10)]

/-- `timestamp.strftime('%m/%d %H:%M:%S')`. -/
def formatTimestamp (t : Timestamp) : List Char :=
  pad2 t.month ++ '/' :: pad2 t.day ++ ' ' :: pad2 t.hour ++
    ':' :: pad2 t.minute ++ ':' :: pad2 t.second

/-- `LogEntry.format`: reconstruct the entry in original log format. -/
def LogEntry.format (e : LogEntry) : String :=
  match e.content with
  | [] =>
    ⟨formatTimestamp e.timestamp ++ " UTC [".data ++ e.entry_type.data ++
      "] (empty)\n".data⟩
  | c0 :: restLines =>
    ⟨formatTimestamp e.timestamp ++ " UTC [".data ++ e.entry_type.data ++
      "] ".data ++ c0.data ++
      restLines.flatMap (fun l => '\n' :: l.data) ++ ['\n']⟩

/-- One console warning printed by the parser, in print order. -/
inductive Warning
  | invalidDateFolder (source : String) (dateFolder : Option String)
  | malformedTimestamp (source : String) (excerpt : String)
  | orphanedLine (source : String) (excerpt : String)
deriving DecidableEq

/-- Discriminator for the invalid-date-folder warning. -/
def Warning.isInvalidDateFolder : Warning → Bool
  | .invalidDateFolder _ _ => true
  | _ => false

/-- The `LogEntry` built on a successful header match. -/
def mkEntry (ts : Timestamp) (h : Header) (src : String)
    (ip df : Option String) : LogEntry :=
  ⟨ts, ⟨h.kind⟩, [⟨h.rest⟩], src, ip, df⟩

/-- The per-line loop of `parse_beacon_log`: processes the remaining lines
given the currently open entry (`cur`), returning the emitted entries and the
warnings printed, each in order. -/
def parseLines (baseYear : Nat) (src : String) (ip df : Option String) :
    List (List Char) → Option LogEntry → List LogEntry × List Warning
  | [], none => ([], [])
  | [], some e => ([e], [])
  | line :: rest, cur =>
    match matchHeader line with
    | some h =>
      match mkDatetime baseYear h.month h.day h.hour h.minute h.second with
      | some ts =>
        let next := parseLines baseYear src ip df rest (some (mkEntry ts h src ip df))
        (cur.toList ++ next.1, next.2)
      | none =>
        let next := parseLines baseYear src ip df rest none
        (cur.toList ++ next.1,
          Warning.malformedTimestamp src ⟨line.take 80⟩ :: next.2)
    | none =>
      match cur with
      | some e =>
        parseLines baseYear src ip df rest
          (some { e with content := e.content ++ [⟨line⟩] })
      | none =>
        if line.any (fun c => !pyIsSpace c) then
          let next := parseLines baseYear src ip df rest none
          (next.1, Warning.orphanedLine src ⟨line.take 50⟩ :: next.2)
        else parseLines baseYear src ip df rest none

/-- The check `not date_folder or len(date_folder) != 6 or not
date_folder.isdigit()` (negated): `true` iff the token is exactly 6 ASCII
digits.  `none` models Python `None`. -/
def validDateFolder : Option String → Bool
  | none => false
  | some s => s.length == 6 && s.data.all Char.isDigit

/-- The character list of an optional string (`[]` for `None`). -/
def dfData : Option String → List Char
  | none => []
  | some s => s.data

/-- `int(date_folder[:2])` on a valid token. -/
def firstTwoVal (l : List Char) : Nat :=
  match l with
  | a :: b :: _ => twoDigitVal a b
  | _ => 0

/-- `LogParser.parse_beacon_log`.  `currentYear` models
`datetime.now().year`; the second component collects the printed warnings. -/
def parse_beacon_log (currentYear : Nat) (content : String)
    (date_folder : Option String) (source_file : String)
    (ip_address : Option String) : List LogEntry × List Warning :=
  if content.data.isEmpty then ([], [])
  else
    let valid := validDateFolder date_folder
    let baseYear := if valid then 2000 + firstTwoVal (dfData date_folder) else currentYear
    let res := parseLines baseYear source_file ip_address date_folder
      (splitlines content.data) none
    if valid then res
    else (res.1, Warning.invalidDateFolder source_file date_folder :: res.2)

/-- `LogParser.parse_system_log`. -/
def parse_system_log (currentYear : Nat) (content : String)
    (date_folder : Option String) (source_file : String) :
    List LogEntry × List Warning :=
  parse_beacon_log currentYear content date_folder source_file none

/-- Python comparison of equal-length integer tuples, lexicographic; the
order on `datetime` values used by `sort(key=lambda e: e.timestamp)`. -/
def lexLe : List Nat → List Nat → Bool
  | [], _ => true
  | _ :: _, [] => false
  | a :: l, b :: m =>
    if a < b then true else if b < a then false else lexLe l m

/-- The comparison tuple of a `datetime`. -/
def tsList (t : Timestamp) : List Nat :=
  [t.year, t.month, t.day, t.hour, t.minute, t.second]

/-- `a.timestamp <= b.timestamp`: the sort key comparison. -/
def entryLe (a b : LogEntry) : Prop :=
  lexLe (tsList a.timestamp) (tsList b.timestamp) = true

instance : DecidableRel entryLe := fun a b =>
  inferInstanceAs (Decidable (lexLe (tsList a.timestamp) (tsList b.timestamp) = true))

/-- `entries.sort(key=lambda e: e.timestamp)`: Python `list.sort` is the
stable sort by the key, i.e. insertion sort with respect to `entryLe`. -/
def sortEntries (es : List LogEntry) : List LogEntry := es.insertionSort entryLe

/-- `LogAggregator.aggregate_by_ip`: sort each per-IP entry list in place by
timestamp and return the same mapping. -/
def aggregate_by_ip (m : List (String × List LogEntry)) :
    List (String × List LogEntry) :=
  m.map (fun p => (p.1, sortEntries p.2))

/-- The `((ip, date_folder), entry)` pairs appended by the loop in
`aggregate_by_ip_and_date`, in iteration order.  The guard
`if entry.date_folder:` keeps exactly the entries whose token is present and
non-empty. -/
def collectDated (m : List (String × List LogEntry)) :
    List ((String × String) × LogEntry) :=
  m.flatMap (fun p => p.2.filterMap (fun e =>
    match e.date_folder with
    | some df => if df.isEmpty then none else some ((p.1, df), e)
    | none => none))

/-- Worker for `dedupKeys`: drop keys already seen. -/
def dedupKeysAux : List (String × String) → List (String × String) →
    List (String × String)
  | [], _ => []
  | k :: rest, seen =>
    if k ∈ seen then dedupKeysAux rest seen
    else k :: dedupKeysAux rest (k :: seen)

/-- The keys of the `defaultdict`, in first-insertion order. -/
def dedupKeys (l : List (String × String)) : List (String × String) :=
  dedupKeysAux l []

/-- The entries appended under key `k`, in iteration order. -/
def groupInput (m : List (String × List LogEntry)) (k : String × String) :
    List LogEntry :=
  ((collectDated m).filter (fun q => decide (q.1 = k))).map Prod.snd

/-- `LogAggregator.aggregate_by_ip_and_date`. -/
def aggregate_by_ip_and_date (m : List (String × List LogEntry)) :
    List ((String × String) × List LogEntry) :=
  (dedupKeys ((collectDated m).map Prod.fst)).map
    (fun k => (k, sortEntries (groupInput m k)))

/-- Output file name for the complete view of one IP. -/
def completeName (ip : String) : String := ip ++ "-Complete.log"

/-- Output file name for the daily view of one (IP, date-folder) group. -/
def dailyName (k : String × String) : String := k.1 ++ "-" ++ k.2 ++ ".log"

/-- `f.writelines(entry.format() for entry in entries)`: the contents written
for one group. -/
def renderAll (es : List LogEntry) : String := String.join (es.map LogEntry.format)

/-- `LogWriter.write_complete_logs`.  `writeOk` models whether opening and
writing the named output file succeeds (an exception is an `IOError`).
Returns the successfully written (name, contents) pairs, the names whose
write failed and was reported, and the returned `files_written` counter. -/
def write_complete_logs (writeOk : String → Bool) :
    List (String × List LogEntry) →
    List (String × String) × List String × Nat
  | [] => ([], [], 0)
  | p :: rest =>
    let next := write_complete_logs writeOk rest
    if p.2.isEmpty then next
    else if writeOk (completeName p.1) then
      ((completeName p.1, renderAll p.2) :: next.1, next.2.1, next.2.2 + 1)
    else
      (next.1, completeName p.1 :: next.2.1, next.2.2)

/-- `LogWriter.write_daily_logs`. -/
def write_daily_logs (writeOk : String → Bool) :
    List ((String × String) × List LogEntry) →
    List (String × String) × List String × Nat
  | [] => ([], [], 0)
  | p :: rest =>
    let next := write_daily_logs writeOk rest
    if p.2.isEmpty then next
    else if writeOk (dailyName p.1) then
      ((dailyName p.1, renderAll p.2) :: next.1, next.2.1, next.2.2 + 1)
    else
      (next.1, dailyName p.1 :: next.2.1, next.2.2)

/-- A header line exactly in the fixed grammar
`MM/DD HH:MM:SS UTC [kind] <free text>` (single-space separators,
zero-padded two-digit numeric fields). -/
def mkHeaderLine (mo d h mi s : Nat) (kind free : List Char) : List Char :=
  pad2 mo ++ ('/' :: (pad2 d ++ (' ' :: (pad2 h ++ (':' :: (pad2 mi ++
    (':' :: (pad2 s ++ (' ' :: 'U' :: 'T' :: 'C' :: ' ' :: '[' ::
      (kind ++ (']' :: ' ' :: free)))))))))))

/-- Join lines with `\n` separators (no trailing newline). -/
def joinLines : List (List Char) → List Char
  | [] => []
  | [l] => l
  | l :: ls => l ++ '\n' :: joinLines ls

/-- Sample data for concrete instantiations. -/
def tsT1 : Timestamp := ⟨2023, 8, 15, 10, 0, 1⟩

/-- Sample entry. -/
def entryA : LogEntry :=
  ⟨tsT1, "input", ["whoami"], "beacon.log", some "10.0.0.5", some "230815"⟩

/-- Sample entry with the same timestamp as `entryA`. -/
def entryB : LogEntry :=
  ⟨tsT1, "output", [""], "beacon.log", some "10.0.0.5", some "230815"⟩

/-! ## Order lemmas for the timestamp comparison -/

theorem lexLe_refl : ∀ l : List Nat, lexLe l l = true := by
  intro l
  induction l with
  | nil => rfl
  | cons a l ih => simp [lexLe, ih]

theorem lexLe_total : ∀ l m : List Nat, lexLe l m = true ∨ lexLe m l = true := by
  intro l
  induction l with
  | nil => intro m; left; rfl
  | cons a l ih =>
    intro m
    cases m with
    | nil => right; rfl
    | cons b m =>
      rcases Nat.lt_trichotomy a b with hab | hab | hab
      · left; simp [lexLe, hab]
      · subst hab
        rcases ih m with hm | hm
        · left; simp [lexLe, hm]
        · right; simp [lexLe, hm]
      · right; simp [lexLe, hab]

theorem lexLe_trans : ∀ l m n : List Nat,
    lexLe l m = true → lexLe m n = true → lexLe l n = true := by
  intro l
  induction l with
  | nil => intro m n _ _; rfl
  | cons a l ih =>
    intro m n hlm hmn
    cases m with
    | nil => simp [lexLe] at hlm
    | cons b m =>
      cases n with
      | nil => simp [lexLe] at hmn
      | cons c n =>
        simp only [lexLe] at hlm hmn ⊢
        split at hlm
        · split
          · rfl
          · split
            · rename_i hab _ hca
              split at hmn
              · omega
              · split at hmn
                · exact absurd hmn (by simp)
                · omega
            · rename_i hab hca hac
              split at hmn
              · omega
              · split at hmn
                · exact absurd hmn (by simp)
                · omega
        · split at hlm
          · exact absurd hlm (by simp)
          · split at hmn
            · rename_i hab hba hbc
              have hac : a < c := by omega
              simp [hac]
            · split at hmn
              · exact absurd hmn (by simp)
              · rename_i hab hba hbc hcb
                have : a = b := by omega
                subst this
                have : a = c := by omega
                subst this
                simp [Nat.lt_irrefl, ih m n hlm hmn]

instance : IsTotal LogEntry entryLe :=
  ⟨fun a b => lexLe_total (tsList a.timestamp) (tsList b.timestamp)⟩

instance : IsTrans LogEntry entryLe :=
  ⟨fun _ _ _ hab hbc => lexLe_trans _ _ _ hab hbc⟩

theorem entryLe_of_ts_eq {a b : LogEntry} (h : a.timestamp = b.timestamp) :
    entryLe a b := by
  unfold entryLe
  rw [h]
  exact lexLe_refl _

/-! ## C1: group-and-sort -/

/-- C1: `aggregate_by_ip` returns the same mapping (same keys, and for every
input binding the corresponding sorted binding is in the result), with each
per-entity sequence a permutation of the input sorted ascending by timestamp,
stably: two Records with equal timestamps, the first preceding the second in
the input sequence, keep that relative order in the sorted output. -/
theorem aggregate_by_ip_spec (m : List (String × List LogEntry))
    (k : String) (es : List LogEntry) (hmem : (k, es) ∈ m) :
    (aggregate_by_ip m).map Prod.fst = m.map Prod.fst ∧
    (k, sortEntries es) ∈ aggregate_by_ip m ∧
    List.Perm (sortEntries es) es ∧
    (sortEntries es).Pairwise entryLe ∧
    ∀ a b : LogEntry, List.Sublist [a, b] es → a.timestamp = b.timestamp →
      List.Sublist [a, b] (sortEntries es) := by
  refine ⟨?_, ?_, ?_, ?_, ?_⟩
  · simp [aggregate_by_ip]
  · exact List.mem_map.mpr ⟨(k, es), hmem, rfl⟩
  · exact List.perm_insertionSort entryLe es
  · exact List.sorted_insertionSort entryLe es
  · intro a b hsub hts
    exact List.pair_sublist_insertionSort (entryLe_of_ts_eq hts) hsub

/-- Witness for C1 at a concrete mapping with two equal-timestamp entries. -/
theorem aggregate_by_ip_spec_witness :
    (("10.0.0.5", [entryA, entryB]) ∈ [("10.0.0.5", [entryA, entryB])]) ∧
    entryA.timestamp = entryB.timestamp ∧
    List.Sublist [entryA, entryB] (sortEntries [entryA, entryB]) := by
  refine ⟨by simp, rfl, ?_⟩
  exact (aggregate_by_ip_spec [("10.0.0.5", [entryA, entryB])] "10.0.0.5"
    [entryA, entryB] (by simp)).2.2.2.2 entryA entryB (List.Sublist.refl _) rfl

/-! ## C3: the worked parsing example -/

/-- C3: parsing the two-record example blob with dateFolder "230815" and
entity 10.0.0.5 yields exactly the two Records of the spec, in order
(independent of the current wall-clock year `cy`). -/
theorem parse_beacon_log_example (cy : Nat) :
    parse_beacon_log cy
      "08/15 10:00:01 UTC [input] whoami\nDOMAIN\\user\n08/15 10:00:05 UTC [output] \nadministrator\n"
      (some "230815") "beacon.log" (some "10.0.0.5")
    = ([⟨⟨2023, 8, 15, 10, 0, 1⟩, "input", ["whoami", "DOMAIN\\user"],
          "beacon.log", some "10.0.0.5", some "230815"⟩,
        ⟨⟨2023, 8, 15, 10, 0, 5⟩, "output", ["", "administrator"],
          "beacon.log", some "10.0.0.5", some "230815"⟩], []) := rfl

/-! ## C9: system logs are beacon logs without an entity -/

/-- Invariant of the parsing loop: every emitted entry carries the base year
and the entity passed to the parser, and no per-line warning is the
invalid-date-folder warning. -/
theorem parseLines_inv (b : Nat) (src : String) (ip df : Option String) :
    ∀ (lines : List (List Char)) (cur : Option LogEntry),
      (∀ e, cur = some e → e.timestamp.year = b ∧ e.ip_address = ip) →
      (∀ e ∈ (parseLines b src ip df lines cur).1,
         e.timestamp.year = b ∧ e.ip_address = ip) ∧
      (∀ w ∈ (parseLines b src ip df lines cur).2,
         w.isInvalidDateFolder = false) := by
  intro lines
  induction lines with
  | nil =>
    intro cur hcur
    constructor
    · intro e he
      cases cur with
      | none => simp [parseLines] at he
      | some e0 =>
        simp [parseLines] at he
        subst he
        exact hcur _ rfl
    · intro w hw
      cases cur with
      | none => simp [parseLines] at hw
      | some e0 => simp [parseLines] at hw
  | cons line rest ih =>
    intro cur hcur
    rcases hm : matchHeader line with _ | h
    · cases cur with
      | some e0 =>
        have hnext := ih (some { e0 with content := e0.content ++ [⟨line⟩] })
          (by
            intro e1 h1
            cases h1
            simpa using hcur e0 rfl)
        constructor
        · intro e he
          exact hnext.1 e (by simpa [parseLines, hm] using he)
        · intro w hw
          exact hnext.2 w (by simpa [parseLines, hm] using hw)
      | none =>
        have hnext := ih none (by intro e1 h1; cases h1)
        by_cases hb : line.any (fun c => !pyIsSpace c) = true
        · constructor
          · intro e he
            exact hnext.1 e (by simpa [parseLines, hm, hb] using he)
          · intro w hw
            have hw' : w = Warning.orphanedLine src ⟨line.take 50⟩ ∨
                w ∈ (parseLines b src ip df rest none).2 := by
              simpa [parseLines, hm, hb] using hw
            rcases hw' with rfl | hw'
            · rfl
            · exact hnext.2 w hw'
        · constructor
          · intro e he
            exact hnext.1 e (by simpa [parseLines, hm, hb] using he)
          · intro w hw
            exact hnext.2 w (by simpa [parseLines, hm, hb] using hw)
    · rcases hts : mkDatetime b h.month h.day h.hour h.minute h.second with _ | ts
      · have hnext := ih none (by intro e1 h1; cases h1)
        constructor
        · intro e he
          have he' : e ∈ cur.toList ∨ e ∈ (parseLines b src ip df rest none).1 := by
            simpa [parseLines, hm, hts] using he
          rcases he' with he' | he'
          · cases cur with
            | none => simp at he'
            | some e0 =>
              simp at he'
              subst he'
              exact hcur _ rfl
          · exact hnext.1 e he'
        · intro w hw
          have hw' : w = Warning.malformedTimestamp src ⟨line.take 80⟩ ∨
              w ∈ (parseLines b src ip df rest none).2 := by
            simpa [parseLines, hm, hts] using hw
          rcases hw' with rfl | hw'
          · rfl
          · exact hnext.2 w hw'
      · have hyear : ts = ⟨b, h.month, h.day, h.hour, h.minute, h.second⟩ := by
          unfold mkDatetime at hts
          split at hts
          · exact (Option.some.inj hts).symm
          · cases hts
        have hnext := ih (some (mkEntry ts h src ip df))
          (by
            intro e1 h1
            cases h1
            simp [mkEntry, hyear])
        constructor
        · intro e he
          have he' : e ∈ cur.toList ∨
              e ∈ (parseLines b src ip df rest (some (mkEntry ts h src ip df))).1 := by
            simpa [parseLines, hm, hts] using he
          rcases he' with he' | he'
          · cases cur with
            | none => simp at he'
            | some e0 =>
              simp at he'
              subst he'
              exact hcur _ rfl
          · exact hnext.1 e he'
        · intro w hw
          exact hnext.2 w (by simpa [parseLines, hm, hts] using hw)

/-- C9: `parse_system_log` is exactly `parse_beacon_log` with an absent
entity identifier, and every Record it returns has no entity. -/
theorem parse_system_log_spec (cy : Nat) (content : String)
    (df : Option String) (src : String) :
    parse_system_log cy content df src =
      parse_beacon_log cy content df src none ∧
    ∀ e ∈ (parse_system_log cy content df src).1, e.ip_address = none := by
  refine ⟨rfl, ?_⟩
  intro e he
  unfold parse_system_log parse_beacon_log at he
  by_cases hemp : content.data.isEmpty = true
  · simp [hemp] at he
  · simp only [hemp, if_false, Bool.false_eq_true] at he
    by_cases hv : validDateFolder df = true
    · simp only [hv, if_true] at he
      exact ((parseLines_inv _ src none df _ none (by intro e1 h1; cases h1)).1
        e he).2
    · simp only [hv, Bool.false_eq_true, if_false] at he
      exact ((parseLines_inv _ src none df _ none (by intro e1 h1; cases h1)).1
        e he).2

/-! ## C10: determinism for valid date folders -/

/-- C10: when the date-folder token is valid, the parse result does not
depend on the current wall-clock year. -/
theorem parse_beacon_log_deterministic (cy1 cy2 : Nat) (content : String)
    (df : Option String) (src : String) (ip : Option String)
    (h : validDateFolder df = true) :
    parse_beacon_log cy1 content df src ip =
      parse_beacon_log cy2 content df src ip := by
  unfold parse_beacon_log
  simp only [h, if_true]

/-- Witness for C10: two different clock years, same result. -/
theorem parse_beacon_log_deterministic_witness :
    validDateFolder (some "230815") = true ∧
    parse_beacon_log 1999
        "08/15 10:00:01 UTC [input] whoami\n" (some "230815") "beacon.log"
        (some "10.0.0.5") =
      parse_beacon_log 2050
        "08/15 10:00:01 UTC [input] whoami\n" (some "230815") "beacon.log"
        (some "10.0.0.5") :=
  ⟨by decide, parse_beacon_log_deterministic 1999 2050 _ _ _ _ (by decide)⟩

/-! ## C5: malformed-timestamp headers -/

/-- C5: on a header-pattern line whose timestamp components are out of range,
the parser emits the previously open Record (if any) first, reports one
malformed-timestamp warning carrying the 80-character excerpt of the line,
emits no Record for the malformed header and continues with no open Record;
in particular a blob consisting only of such a header yields zero Records and
exactly that one warning. -/
theorem parse_malformed_header_spec :
    (∀ (b : Nat) (src : String) (ip df : Option String) (line : List Char)
       (rest : List (List Char)) (cur : Option LogEntry) (h : Header),
       matchHeader line = some h →
       mkDatetime b h.month h.day h.hour h.minute h.second = none →
       parseLines b src ip df (line :: rest) cur =
         (cur.toList ++ (parseLines b src ip df rest none).1,
          Warning.malformedTimestamp src ⟨line.take 80⟩ ::
            (parseLines b src ip df rest none).2)) ∧
    ∀ cy : Nat,
      parse_beacon_log cy "13/40 25:00:00 UTC [x] y\n" (some "230815")
        "beacon.log" (some "10.0.0.5")
      = ([], [Warning.malformedTimestamp "beacon.log"
               "13/40 25:00:00 UTC [x] y"]) := by
  constructor
  · intro b src ip df line rest cur h hm hts
    simp [parseLines, hm, hts]
  · intro cy
    rfl

/-- Witness for C5: one step of the loop on a malformed header while a
Record is open emits that Record and the warning. -/
theorem parse_malformed_header_spec_witness :
    parseLines 2023 "beacon.log" (some "10.0.0.5") (some "230815")
      ["13/40 25:00:00 UTC [x] y".data] (some entryA) =
    ([entryA], [Warning.malformedTimestamp "beacon.log"
      "13/40 25:00:00 UTC [x] y"]) := by
  have h := parse_malformed_header_spec.1 2023 "beacon.log" (some "10.0.0.5")
    (some "230815") "13/40 25:00:00 UTC [x] y".data [] (some entryA)
    ⟨13, 40, 25, 0, 0, ['x'], ['y']⟩ (by decide) (by decide)
  exact h.trans (by decide)

/-! ## C8: the open Record is emitted, not discarded -/

/-- C8 counterexample: parsing a valid header, a continuation line and then a
malformed header emits the prior Record with all its accumulated body lines;
they are not discarded. -/
theorem parse_malformed_discard_cex :
    ((parse_beacon_log 2025
        "08/15 10:00:01 UTC [a] b\nline2\n13/40 25:00:00 UTC [x] y\n"
        (some "230815") "s" none).1.map LogEntry.content) = [["b", "line2"]] := by
  decide

/-- C8 (amended): when a malformed-timestamp header arrives while a Record is
open, the open Record is finalized and emitted unchanged (its accumulated
body lines appear in the output); only the malformed header's would-be Record
is dropped and parsing continues with no open Record. -/
theorem parse_malformed_keeps_open_record
    (b : Nat) (src : String) (ip df : Option String) (line : List Char)
    (rest : List (List Char)) (e : LogEntry) (h : Header)
    (hm : matchHeader line = some h)
    (hts : mkDatetime b h.month h.day h.hour h.minute h.second = none) :
    (parseLines b src ip df (line :: rest) (some e)).1 =
      e :: (parseLines b src ip df rest none).1 := by
  simp [parseLines, hm, hts]

/-- Witness for C8 (amended) at a concrete open Record and malformed line. -/
theorem parse_malformed_keeps_open_record_witness :
    (parseLines 2023 "s" none none ["13/40 25:00:00 UTC [x] y".data]
      (some entryB)).1 = [entryB] := by
  have h := parse_malformed_keeps_open_record 2023 "s" none none
    "13/40 25:00:00 UTC [x] y".data [] entryB
    ⟨13, 40, 25, 0, 0, ['x'], ['y']⟩ (by decide) (by decide)
  exact h.trans (by decide)

/-! ## C6: date-folder validation and year resolution -/

/-- C6: on non-empty text, an invalid (absent or non-6-digit) date folder
produces a leading warning naming the source and the token and every parsed
Record carries the current calendar year; a valid date folder produces no
invalid-date-folder warning and every Record's year is 2000 plus the value of
the token's first two digits. -/
theorem parse_beacon_log_year_spec (cy : Nat) (content : String)
    (df : Option String) (src : String) (ip : Option String)
    (hne : content.data.isEmpty = false) :
    (validDateFolder df = false →
       (parse_beacon_log cy content df src ip).2.head? =
         some (Warning.invalidDateFolder src df) ∧
       ∀ e ∈ (parse_beacon_log cy content df src ip).1,
         e.timestamp.year = cy) ∧
    (validDateFolder df = true →
       (∀ w ∈ (parse_beacon_log cy content df src ip).2,
          w.isInvalidDateFolder = false) ∧
       ∀ e ∈ (parse_beacon_log cy content df src ip).1,
         e.timestamp.year = 2000 + firstTwoVal (dfData df)) := by
  constructor
  · intro hv
    unfold parse_beacon_log
    simp only [hne, Bool.false_eq_true, if_false, hv, if_true]
    constructor
    · rfl
    · intro e he
      exact ((parseLines_inv cy src ip df (splitlines content.data) none
        (by intro e1 h1; cases h1)).1 e he).1
  · intro hv
    unfold parse_beacon_log
    simp only [hne, Bool.false_eq_true, if_false, hv, if_true]
    constructor
    · intro w hw
      exact (parseLines_inv (2000 + firstTwoVal (dfData df)) src ip df
        (splitlines content.data) none (by intro e1 h1; cases h1)).2 w hw
    · intro e he
      exact ((parseLines_inv (2000 + firstTwoVal (dfData df)) src ip df
        (splitlines content.data) none (by intro e1 h1; cases h1)).1 e he).1

/-- Witness for C6: a concrete invalid token (wrong length) and a concrete
valid token. -/
theorem parse_beacon_log_year_spec_witness :
    (("08/15 10:00:01 UTC [x] y\n" : String).data.isEmpty = false) ∧
    validDateFolder (some "23081") = false ∧
    (parse_beacon_log 2026 "08/15 10:00:01 UTC [x] y\n" (some "23081")
      "s" none).2.head? =
      some (Warning.invalidDateFolder "s" (some "23081")) := by
  refine ⟨by decide, by decide, ?_⟩
  exact ((parse_beacon_log_year_spec 2026 "08/15 10:00:01 UTC [x] y\n"
    (some "23081") "s" none (by decide)).1 (by decide)).1

/-! ## C7: per-group write isolation -/

theorem write_complete_logs_eq (writeOk : String → Bool) :
    ∀ m : List (String × List LogEntry),
    write_complete_logs writeOk m =
      ((m.filter (fun p => !p.2.isEmpty && writeOk (completeName p.1))).map
         (fun p => (completeName p.1, renderAll p.2)),
       (m.filter (fun p => !p.2.isEmpty && !writeOk (completeName p.1))).map
         (fun p => completeName p.1),
       (m.filter (fun p => !p.2.isEmpty && writeOk (completeName p.1))).length) := by
  intro m
  induction m with
  | nil => rfl
  | cons p rest ih =>
    by_cases h1 : p.2.isEmpty = true
    · simp [write_complete_logs, h1, ih]
    · by_cases h2 : writeOk (completeName p.1) = true
      · simp [write_complete_logs, h1, h2, ih]
      · simp [write_complete_logs, h1, h2, ih]

theorem write_daily_logs_eq (writeOk : String → Bool) :
    ∀ md : List ((String × String) × List LogEntry),
    write_daily_logs writeOk md =
      ((md.filter (fun p => !p.2.isEmpty && writeOk (dailyName p.1))).map
         (fun p => (dailyName p.1, renderAll p.2)),
       (md.filter (fun p => !p.2.isEmpty && !writeOk (dailyName p.1))).map
         (fun p => dailyName p.1),
       (md.filter (fun p => !p.2.isEmpty && writeOk (dailyName p.1))).length) := by
  intro md
  induction md with
  | nil => rfl
  | cons p rest ih =>
    by_cases h1 : p.2.isEmpty = true
    · simp [write_daily_logs, h1, ih]
    · by_cases h2 : writeOk (dailyName p.1) = true
      · simp [write_daily_logs, h1, h2, ih]
      · simp [write_daily_logs, h1, h2, ih]

/-- C7: for both write operations, a failing non-empty group is reported and
skipped while every other non-empty writable group is still rendered and
written, and the returned counter is the number of groups successfully
written. -/
theorem write_logs_spec (writeOk : String → Bool)
    (m : List (String × List LogEntry))
    (md : List ((String × String) × List LogEntry)) :
    ((write_complete_logs writeOk m).2.2 =
       (m.filter (fun p => !p.2.isEmpty && writeOk (completeName p.1))).length) ∧
    (∀ p ∈ m, p.2.isEmpty = false → writeOk (completeName p.1) = true →
       (completeName p.1, renderAll p.2) ∈ (write_complete_logs writeOk m).1) ∧
    (∀ p ∈ m, p.2.isEmpty = false → writeOk (completeName p.1) = false →
       completeName p.1 ∈ (write_complete_logs writeOk m).2.1) ∧
    ((write_daily_logs writeOk md).2.2 =
       (md.filter (fun p => !p.2.isEmpty && writeOk (dailyName p.1))).length) ∧
    (∀ p ∈ md, p.2.isEmpty = false → writeOk (dailyName p.1) = true →
       (dailyName p.1, renderAll p.2) ∈ (write_daily_logs writeOk md).1) ∧
    (∀ p ∈ md, p.2.isEmpty = false → writeOk (dailyName p.1) = false →
       dailyName p.1 ∈ (write_daily_logs writeOk md).2.1) := by
  refine ⟨?_, ?_, ?_, ?_, ?_, ?_⟩
  · rw [write_complete_logs_eq]
  · intro p hp h1 h2
    rw [write_complete_logs_eq]
    exact List.mem_map.mpr ⟨p, List.mem_filter.mpr ⟨hp, by simp [h1, h2]⟩, rfl⟩
  · intro p hp h1 h2
    rw [write_complete_logs_eq]
    exact List.mem_map.mpr ⟨p, List.mem_filter.mpr ⟨hp, by simp [h1, h2]⟩, rfl⟩
  · rw [write_daily_logs_eq]
  · intro p hp h1 h2
    rw [write_daily_logs_eq]
    exact List.mem_map.mpr ⟨p, List.mem_filter.mpr ⟨hp, by simp [h1, h2]⟩, rfl⟩
  · intro p hp h1 h2
    rw [write_daily_logs_eq]
    exact List.mem_map.mpr ⟨p, List.mem_filter.mpr ⟨hp, by simp [h1, h2]⟩, rfl⟩

/-- Witness for C7: two non-empty groups, the second's path unwritable; the
first is written, the second reported, the count is 1. -/
theorem write_logs_spec_witness :
    (("a", [entryA]) ∈
      ([("a", [entryA]), ("b", [entryA])] : List (String × List LogEntry))) ∧
    (completeName "a", renderAll [entryA]) ∈
      (write_complete_logs (fun s => s == "a-Complete.log")
        [("a", [entryA]), ("b", [entryA])]).1 ∧
    completeName "b" ∈
      (write_complete_logs (fun s => s == "a-Complete.log")
        [("a", [entryA]), ("b", [entryA])]).2.1 ∧
    (write_complete_logs (fun s => s == "a-Complete.log")
        [("a", [entryA]), ("b", [entryA])]).2.2 = 1 := by
  refine ⟨by simp, ?_, ?_, ?_⟩
  · exact (write_logs_spec (fun s => s == "a-Complete.log")
      [("a", [entryA]), ("b", [entryA])] []).2.1 ("a", [entryA]) (by simp)
      (by decide) (by decide)
  · exact (write_logs_spec (fun s => s == "a-Complete.log")
      [("a", [entryA]), ("b", [entryA])] []).2.2.1 ("b", [entryA]) (by simp)
      (by decide) (by decide)
  · exact ((write_logs_spec (fun s => s == "a-Complete.log")
      [("a", [entryA]), ("b", [entryA])] []).1).trans (by decide)

/-! ## C4: composite grouping -/

theorem mem_collectDated {m : List (String × List LogEntry)}
    {q : (String × String) × LogEntry} :
    q ∈ collectDated m ↔
      ∃ es, (q.1.1, es) ∈ m ∧ q.2 ∈ es ∧ q.2.date_folder = some q.1.2 ∧
        q.1.2.isEmpty = false := by
  unfold collectDated
  rw [List.mem_flatMap]
  constructor
  · rintro ⟨p, hp, hq⟩
    rw [List.mem_filterMap] at hq
    rcases hq with ⟨e, he, hfe⟩
    rcases hdf : e.date_folder with _ | df
    · rw [hdf] at hfe
      cases hfe
    · rw [hdf] at hfe
      by_cases hemp : df.isEmpty = true
      · simp [hemp] at hfe
      · simp only [hemp, Bool.false_eq_true, if_false, Option.some.injEq] at hfe
        subst hfe
        exact ⟨p.2, hp, he, hdf, by simpa using hemp⟩
  · rintro ⟨es, hes, he, hdf, hemp⟩
    refine ⟨(q.1.1, es), hes, List.mem_filterMap.mpr ⟨q.2, he, ?_⟩⟩
    simp [hdf, hemp]

theorem mem_dedupKeysAux : ∀ (l seen : List (String × String))
    (x : String × String),
    x ∈ dedupKeysAux l seen ↔ x ∈ l ∧ x ∉ seen := by
  intro l
  induction l with
  | nil => simp [dedupKeysAux]
  | cons k rest ih =>
    intro seen x
    by_cases hk : k ∈ seen
    · rw [dedupKeysAux, if_pos hk, ih]
      constructor
      · rintro ⟨hr, hns⟩
        exact ⟨List.mem_cons_of_mem _ hr, hns⟩
      · rintro ⟨hkr, hns⟩
        rcases List.mem_cons.mp hkr with rfl | hr
        · exact absurd hk hns
        · exact ⟨hr, hns⟩
    · rw [dedupKeysAux, if_neg hk]
      constructor
      · intro hx
        rcases List.mem_cons.mp hx with rfl | hx
        · exact ⟨List.mem_cons_self _ _, hk⟩
        · rcases (ih (k :: seen) x).mp hx with ⟨hr, hns⟩
          refine ⟨List.mem_cons_of_mem _ hr, fun hs => hns ?_⟩
          exact List.mem_cons_of_mem _ hs
      · rintro ⟨hkr, hns⟩
        rcases List.mem_cons.mp hkr with rfl | hr
        · exact List.mem_cons_self _ _
        · by_cases hxk : x = k
          · subst hxk
            exact List.mem_cons_self _ _
          · refine List.mem_cons_of_mem _ ((ih (k :: seen) x).mpr ⟨hr, ?_⟩)
            intro hs
            rcases List.mem_cons.mp hs with h | h
            · exact hxk h
            · exact hns h

theorem mem_dedupKeys {l : List (String × String)} {x : String × String} :
    x ∈ dedupKeys l ↔ x ∈ l := by
  rw [dedupKeys, mem_dedupKeysAux]
  simp

theorem mem_groupInput {m : List (String × List LogEntry)}
    {k : String × String} {e : LogEntry} :
    e ∈ groupInput m k ↔ (k, e) ∈ collectDated m := by
  unfold groupInput
  rw [List.mem_map]
  constructor
  · rintro ⟨q, hq, rfl⟩
    rcases List.mem_filter.mp hq with ⟨hq1, hq2⟩
    have : q.1 = k := of_decide_eq_true hq2
    rwa [← this]
  · intro h
    exact ⟨(k, e), List.mem_filter.mpr ⟨h, by simp⟩, rfl⟩

theorem mem_aggregate_by_ip_and_date {m : List (String × List LogEntry)}
    {k : String × String} {g : List LogEntry} :
    (k, g) ∈ aggregate_by_ip_and_date m ↔
      k ∈ dedupKeys ((collectDated m).map Prod.fst) ∧
      g = sortEntries (groupInput m k) := by
  unfold aggregate_by_ip_and_date
  rw [List.mem_map]
  constructor
  · rintro ⟨k', hk', heq⟩
    rcases Prod.mk.injEq .. ▸ heq with ⟨h1, h2⟩
    subst h1
    exact ⟨hk', h2.symm⟩
  · rintro ⟨hk, rfl⟩
    exact ⟨k, hk, rfl⟩

/-- C4 counterexample: a Record whose dateFolder is present but empty is
excluded from the composite grouping entirely, contradicting "includes every
Record whose dateFolder is present". -/
theorem aggregate_by_ip_and_date_cex :
    ((⟨tsT1, "x", ["y"], "s", none, some ""⟩ : LogEntry).date_folder ≠ none) ∧
    aggregate_by_ip_and_date
      [("10.0.0.5", [⟨tsT1, "x", ["y"], "s", none, some ""⟩])] = [] := by
  exact ⟨by decide, by decide⟩

/-- C4 (amended): composite grouping excludes every Record whose dateFolder
is absent or empty, includes every Record whose dateFolder is present and
non-empty under the key (entity, dateFolder), partitions groups exactly by
that key over the input mapping, and sorts each group ascending by timestamp
with the same stable rule (relative to the group's encounter-order input). -/
theorem aggregate_by_ip_and_date_spec (m : List (String × List LogEntry)) :
    (∀ k g, (k, g) ∈ aggregate_by_ip_and_date m →
       ∀ e ∈ g, e.date_folder = some k.2 ∧ k.2.isEmpty = false ∧
         ∃ es, (k.1, es) ∈ m ∧ e ∈ es) ∧
    (∀ ip es e df, (ip, es) ∈ m → e ∈ es → e.date_folder = some df →
       df.isEmpty = false →
       ∃ g, ((ip, df), g) ∈ aggregate_by_ip_and_date m ∧ e ∈ g) ∧
    (∀ ip es e, (ip, es) ∈ m → e ∈ es →
       (e.date_folder = none ∨ e.date_folder = some "") →
       ∀ k g, (k, g) ∈ aggregate_by_ip_and_date m → e ∉ g) ∧
    (∀ k g, (k, g) ∈ aggregate_by_ip_and_date m →
       g.Pairwise entryLe ∧
       ∀ a b : LogEntry, List.Sublist [a, b] (groupInput m k) →
         a.timestamp = b.timestamp → List.Sublist [a, b] g) := by
  refine ⟨?_, ?_, ?_, ?_⟩
  · intro k g hkg e he
    rcases (mem_aggregate_by_ip_and_date.mp hkg) with ⟨-, rfl⟩
    have he' : e ∈ groupInput m k := (List.mem_insertionSort entryLe).mp he
    rcases mem_collectDated.mp (mem_groupInput.mp he') with ⟨es, hes, hee, hdf, hemp⟩
    exact ⟨hdf, hemp, es, hes, hee⟩
  · intro ip es e df hes he hdf hemp
    have hcd : ((ip, df), e) ∈ collectDated m :=
      mem_collectDated.mpr ⟨es, hes, he, hdf, hemp⟩
    refine ⟨sortEntries (groupInput m (ip, df)), ?_, ?_⟩
    · refine mem_aggregate_by_ip_and_date.mpr ⟨?_, rfl⟩
      exact mem_dedupKeys.mpr (List.mem_map.mpr ⟨((ip, df), e), hcd, rfl⟩)
    · exact (List.mem_insertionSort entryLe).mpr (mem_groupInput.mpr hcd)
  · intro ip es e hes he hdf k g hkg hcontra
    rcases (mem_aggregate_by_ip_and_date.mp hkg) with ⟨-, rfl⟩
    have he' : e ∈ groupInput m k :=
      (List.mem_insertionSort entryLe).mp hcontra
    rcases mem_collectDated.mp (mem_groupInput.mp he') with ⟨-, -, -, hdf', hemp⟩
    rcases hdf with h | h
    · rw [h] at hdf'
      cases hdf'
    · rw [h] at hdf'
      have hk2 : (k.2 : String) = "" := (Option.some.inj hdf').symm
      rw [hk2] at hemp
      exact absurd hemp (by decide)
  · intro k g hkg
    rcases (mem_aggregate_by_ip_and_date.mp hkg) with ⟨-, rfl⟩
    refine ⟨List.sorted_insertionSort entryLe _, ?_⟩
    intro a b hsub hts
    exact List.pair_sublist_insertionSort (entryLe_of_ts_eq hts) hsub

/-- Witness for C4 (amended): a concrete dated Record lands in its
(entity, dateFolder) group. -/
theorem aggregate_by_ip_and_date_spec_witness :
    (("10.0.0.5", [entryA]) ∈
      ([("10.0.0.5", [entryA])] : List (String × List LogEntry))) ∧
    entryA.date_folder = some "230815" ∧
    ("230815" : String).isEmpty = false ∧
    ∃ g, (("10.0.0.5", "230815"), g) ∈
        aggregate_by_ip_and_date [("10.0.0.5", [entryA])] ∧ entryA ∈ g := by
  refine ⟨by simp, by decide, by decide, ?_⟩
  exact (aggregate_by_ip_and_date_spec [("10.0.0.5", [entryA])]).2.1
    "10.0.0.5" [entryA] entryA "230815" (by simp) (by simp) (by decide)
    (by decide)

/-! ## C2: round-trip fidelity (lemmas on the header matcher) -/

theorem digitChar_isDigit : ∀ k, (digitChar k).isDigit = true := by
  intro k
  unfold digitChar
  split <;> decide

theorem digitChar_not_space : ∀ k, pyIsSpace (digitChar k) = false := by
  intro k
  unfold digitChar
  split <;> decide

theorem digitChar_not_break : ∀ k, isLineBreak (digitChar k) = false := by
  intro k
  unfold digitChar
  split <;> decide

theorem digitVal_digitChar {k : Nat} (hk : k < 10) :
    digitVal (digitChar k) = k := by
  interval_cases k <;> decide

theorem twoDigitVal_pad2 {n : Nat} (hn : n < 100) :
    twoDigitVal (digitChar (n / 10)) (digitChar (n % 10)) = n := by
  unfold twoDigitVal
  rw [digitVal_digitChar (by omega), digitVal_digitChar (by omega)]
  omega

theorem pad2_cons (n : Nat) (r : List Char) :
    pad2 n ++ r = digitChar (n / 10) :: digitChar (n % 10) :: r := rfl

theorem matchTwoDigits_pad2 (n : Nat) (r : List Char) :
    matchTwoDigits (pad2 n ++ r) =
      some (digitChar (n / 10), digitChar (n % 10), r) := by
  simp [pad2, matchTwoDigits, digitChar_isDigit]

theorem expectChar_cons (c : Char) (r : List Char) :
    expectChar c (c :: r) = some r := by
  simp [expectChar]

theorem dropWhile_not_space_head (l : List Char)
    (h : ∀ c, l.head? = some c → pyIsSpace c = false) :
    l.dropWhile pyIsSpace = l := by
  cases l with
  | nil => rfl
  | cons c r =>
    have := h c rfl
    simp [List.dropWhile_cons, this]

theorem expectSpaces1_space (r : List Char)
    (hr : ∀ c, r.head? = some c → pyIsSpace c = false) :
    expectSpaces1 (' ' :: r) = some r := by
  have : pyIsSpace ' ' = true := by decide
  simp only [expectSpaces1, this, if_true]
  rw [dropWhile_not_space_head r hr]

theorem matchDatePart_pad2 (mo d : Nat) (r : List Char) :
    matchDatePart (pad2 mo ++ ('/' :: (pad2 d ++ r))) =
      some (twoDigitVal (digitChar (mo / 10)) (digitChar (mo % 10)),
            twoDigitVal (digitChar (d / 10)) (digitChar (d % 10)), r) := by
  simp only [matchDatePart, matchTwoDigits_pad2, expectChar_cons]

theorem matchTimePart_pad2 (h mi s : Nat) (r : List Char) :
    matchTimePart (pad2 h ++ (':' :: (pad2 mi ++ (':' :: (pad2 s ++ r))))) =
      some (twoDigitVal (digitChar (h / 10)) (digitChar (h % 10)),
            twoDigitVal (digitChar (mi / 10)) (digitChar (mi % 10)),
            twoDigitVal (digitChar (s / 10)) (digitChar (s % 10)), r) := by
  simp only [matchTimePart, matchTwoDigits_pad2, expectChar_cons]

theorem matchUTCPart_utc (r : List Char) :
    matchUTCPart (' ' :: 'U' :: 'T' :: 'C' :: ' ' :: '[' :: r) =
      some ('[' :: r) := rfl

theorem takeWhile_kind (kind r : List Char) (hk : ∀ c ∈ kind, c ≠ ']') :
    (kind ++ ']' :: r).takeWhile (fun c => c != ']') = kind := by
  induction kind with
  | nil => simp [List.takeWhile_cons]
  | cons c l ih =>
    have hc : (c != ']') = true := by
      simpa using hk c (by simp)
    simp only [List.cons_append, List.takeWhile_cons, hc, if_true]
    rw [ih (fun c' h' => hk c' (by simp [h']))]

theorem dropWhile_kind (kind r : List Char) (hk : ∀ c ∈ kind, c ≠ ']') :
    (kind ++ ']' :: r).dropWhile (fun c => c != ']') = ']' :: r := by
  induction kind with
  | nil => simp [List.dropWhile_cons]
  | cons c l ih =>
    have hc : (c != ']') = true := by
      simpa using hk c (by simp)
    simp only [List.cons_append, List.dropWhile_cons, hc, if_true]
    exact ih (fun c' h' => hk c' (by simp [h']))

theorem matchKindPart_bracket (kind free : List Char) (hne : kind ≠ [])
    (hk : ∀ c ∈ kind, c ≠ ']')
    (hfree : ∀ c, free.head? = some c → pyIsSpace c = false) :
    matchKindPart ('[' :: (kind ++ (']' :: ' ' :: free))) = some (kind, free) := by
  have hkemp : kind.isEmpty = false := by
    cases kind with
    | nil => exact absurd rfl hne
    | cons c l => rfl
  simp only [matchKindPart, expectChar_cons,
    takeWhile_kind kind (' ' :: free) hk,
    dropWhile_kind kind (' ' :: free) hk, hkemp, Bool.false_eq_true, if_false,
    expectSpaces1_space free hfree]

theorem matchHeader_mkHeaderLine (mo d h mi s : Nat) (kind free : List Char)
    (hmo : mo < 100) (hd : d < 100) (hh : h < 100) (hmi : mi < 100)
    (hs : s < 100) (hne : kind ≠ []) (hk : ∀ c ∈ kind, c ≠ ']')
    (hfree : ∀ c, free.head? = some c → pyIsSpace c = false) :
    matchHeader (mkHeaderLine mo d h mi s kind free) =
      some ⟨mo, d, h, mi, s, kind, free⟩ := by
  have hsp : expectSpaces1 (' ' :: (pad2 h ++ (':' :: (pad2 mi ++ (':' ::
      (pad2 s ++ (' ' :: 'U' :: 'T' :: 'C' :: ' ' :: '[' ::
        (kind ++ (']' :: ' ' :: free))))))))) =
      some (pad2 h ++ (':' :: (pad2 mi ++ (':' :: (pad2 s ++
        (' ' :: 'U' :: 'T' :: 'C' :: ' ' :: '[' ::
          (kind ++ (']' :: ' ' :: free)))))))) := by
    refine expectSpaces1_space _ ?_
    intro c hc
    rw [pad2_cons] at hc
    simp only [List.head?_cons, Option.some.injEq] at hc
    rw [← hc]
    exact digitChar_not_space _
  simp only [mkHeaderLine, matchHeader, matchDatePart_pad2, hsp,
    matchTimePart_pad2, matchUTCPart_utc,
    matchKindPart_bracket kind free hne hk hfree,
    twoDigitVal_pad2 hmo, twoDigitVal_pad2 hd, twoDigitVal_pad2 hh,
    twoDigitVal_pad2 hmi, twoDigitVal_pad2 hs]

/-! ## C2: splitting and joining lines -/

theorem splitlinesAux_line (l : List Char)
    (hl : ∀ c ∈ l, isLineBreak c = false) :
    ∀ (acc rest : List Char),
      splitlinesAux (l ++ '\n' :: rest) false acc =
        (acc.reverse ++ l) :: splitlinesAux rest false [] := by
  induction l with
  | nil =>
    intro acc rest
    simp [splitlinesAux, isLineBreak]
  | cons c l ih =>
    intro acc rest
    have hc : isLineBreak c = false := hl c (by simp)
    simp only [List.cons_append, splitlinesAux, Bool.false_and,
      Bool.false_eq_true, if_false, hc]
    show splitlinesAux (l ++ '\n' :: rest) false (c :: acc) =
      (acc.reverse ++ c :: l) :: splitlinesAux rest false []
    rw [ih (fun c' h' => hl c' (by simp [h'])) (c :: acc) rest]
    simp

theorem joinLines_cons_eq (l : List Char) (ls : List (List Char)) :
    joinLines (l :: ls) = l ++ ls.flatMap (fun x => '\n' :: x) := by
  induction ls generalizing l with
  | nil => simp [joinLines]
  | cons l2 ls2 ih =>
    show l ++ '\n' :: joinLines (l2 :: ls2) = _
    rw [ih l2]
    simp

theorem splitlines_joinLines (lines : List (List Char)) (rest : List Char)
    (h : ∀ l ∈ lines, ∀ c ∈ l, isLineBreak c = false) (hne : lines ≠ []) :
    splitlines (joinLines lines ++ '\n' :: rest) =
      lines ++ splitlines rest := by
  induction lines with
  | nil => exact absurd rfl hne
  | cons l ls ih =>
    cases ls with
    | nil =>
      show splitlines (l ++ '\n' :: rest) = [l] ++ splitlines rest
      unfold splitlines
      rw [splitlinesAux_line l (h l (by simp)) [] rest]
      simp
    | cons l2 ls2 =>
      show splitlines ((l ++ '\n' :: joinLines (l2 :: ls2)) ++ '\n' :: rest) = _
      rw [List.append_assoc, List.cons_append]
      unfold splitlines
      rw [splitlinesAux_line l (h l (by simp)) []]
      have := ih (fun l' hl' => h l' (by simp [hl'])) (by simp)
      unfold splitlines at this
      rw [this]
      simp

/-! ## C2: running the parser over the first record's lines -/

theorem parseLines_conts (b : Nat) (src : String) (ip df : Option String) :
    ∀ (conts : List (List Char)), (∀ l ∈ conts, matchHeader l = none) →
    ∀ (e : LogEntry) (restLines : List (List Char)),
      (restLines = [] ∨ ∃ l ls, restLines = l :: ls ∧ (matchHeader l).isSome) →
      ∃ tail ws,
        parseLines b src ip df (conts ++ restLines) (some e) =
          ({ e with content :=
              e.content ++ conts.map (fun l => (⟨l⟩ : String)) } :: tail, ws) := by
  intro conts
  induction conts with
  | nil =>
    intro _ e restLines hrest
    rcases hrest with rfl | ⟨l, ls, rfl, hl⟩
    · refine ⟨[], [], ?_⟩
      simp [parseLines]
    · rcases hmatch : matchHeader l with _ | hd
      · rw [hmatch] at hl
        cases hl
      · rcases hts : mkDatetime b hd.month hd.day hd.hour hd.minute hd.second
          with _ | ts
        · refine ⟨(parseLines b src ip df ls none).1,
            Warning.malformedTimestamp src ⟨l.take 80⟩ ::
              (parseLines b src ip df ls none).2, ?_⟩
          simp [parseLines, hmatch, hts]
        · refine ⟨(parseLines b src ip df ls
              (some (mkEntry ts hd src ip df))).1,
            (parseLines b src ip df ls (some (mkEntry ts hd src ip df))).2, ?_⟩
          simp [parseLines, hmatch, hts]
  | cons l conts ih =>
    intro hconts e restLines hrest
    have hl : matchHeader l = none := hconts l (by simp)
    rcases ih (fun l' h' => hconts l' (by simp [h']))
      { e with content := e.content ++ [⟨l⟩] } restLines hrest with ⟨tail, ws, heq⟩
    refine ⟨tail, ws, ?_⟩
    have hstep : parseLines b src ip df ((l :: conts) ++ restLines) (some e) =
        parseLines b src ip df (conts ++ restLines)
          (some { e with content := e.content ++ [⟨l⟩] }) := by
      simp [parseLines, hl]
    rw [hstep, heq]
    simp

theorem daysInMonth_le (y m : Nat) : daysInMonth y m ≤ 31 := by
  unfold daysInMonth
  split
  · split <;> omega
  · split <;> omega

theorem mkHeaderLine_no_break (mo d h mi s : Nat) (kind free : List Char)
    (hkind : ∀ c ∈ kind, isLineBreak c = false)
    (hfree : ∀ c ∈ free, isLineBreak c = false) :
    ∀ c ∈ mkHeaderLine mo d h mi s kind free, isLineBreak c = false := by
  simp only [mkHeaderLine, pad2, List.forall_mem_append, List.forall_mem_cons,
    List.forall_mem_singleton]
  and_intros <;>
    first
      | exact digitChar_not_break _
      | decide
      | exact fun c hc => hkind c hc
      | exact fun c hc => hfree c hc

theorem flatMap_map_mkString (conts : List (List Char)) :
    (conts.map (fun l => (⟨l⟩ : String))).flatMap (fun l => '\n' :: l.data) =
      conts.flatMap (fun x => '\n' :: x) := by
  induction conts with
  | nil => rfl
  | cons l ls ih => simp [ih]

/-- C2 counterexample: a header line valid for the fixed grammar whose free
text begins with a space (so the rendered line has one separator space where
the original had two) parses, but rendering the first Record does not
reproduce the original text. -/
theorem render_parse_roundtrip_cex :
    ((parse_beacon_log 2025 "08/15 10:00:01 UTC [x]  y\n" (some "230815")
        "s" none).1.head?).map LogEntry.format
      = some "08/15 10:00:01 UTC [x] y\n" ∧
    ("08/15 10:00:01 UTC [x] y\n" : String) ≠ "08/15 10:00:01 UTC [x]  y\n" := by
  exact ⟨by decide, by decide⟩

/-- C2 (amended): for every text whose first record is a valid header line of
the fixed grammar (in-range timestamp, non-empty `]`-free kind, free text not
beginning with whitespace) followed by its continuation lines with `\n` line
breaks, and a valid date-folder token, rendering the first parsed Record
reproduces the first record's lines byte for byte (the caller-provided
date/year substitution does not appear in rendered text). -/
theorem render_parse_roundtrip
    (df : String) (cy : Nat) (src : String) (ip : Option String)
    (mo d h mi s : Nat) (kind free : List Char)
    (conts : List (List Char)) (rest : List Char) (ts : Timestamp)
    (hdf : validDateFolder (some df) = true)
    (hts : mkDatetime (2000 + firstTwoVal (dfData (some df))) mo d h mi s =
      some ts)
    (hkind_ne : kind ≠ [])
    (hkind : ∀ c ∈ kind, c ≠ ']' ∧ isLineBreak c = false)
    (hfree_nb : ∀ c ∈ free, isLineBreak c = false)
    (hfree_hd : ∀ c, free.head? = some c → pyIsSpace c = false)
    (hconts : ∀ l ∈ conts,
      (∀ c ∈ l, isLineBreak c = false) ∧ matchHeader l = none)
    (hrest : splitlines rest = [] ∨
      ∃ l ls, splitlines rest = l :: ls ∧ (matchHeader l).isSome) :
    ((parse_beacon_log cy
        ⟨joinLines (mkHeaderLine mo d h mi s kind free :: conts) ++
          '\n' :: rest⟩
        (some df) src ip).1.head?).map (fun e => (LogEntry.format e).data)
      = some (joinLines (mkHeaderLine mo d h mi s kind free :: conts) ++
          ['\n']) := by
  have hcond : (1 ≤ 2000 + firstTwoVal (dfData (some df)) ∧
      2000 + firstTwoVal (dfData (some df)) ≤ 9999 ∧ 1 ≤ mo ∧ mo ≤ 12 ∧
      1 ≤ d ∧ d ≤ daysInMonth (2000 + firstTwoVal (dfData (some df))) mo ∧
      h ≤ 23 ∧ mi ≤ 59 ∧ s ≤ 59) ∧
      ts = ⟨2000 + firstTwoVal (dfData (some df)), mo, d, h, mi, s⟩ := by
    unfold mkDatetime at hts
    split at hts
    · rename_i hc
      exact ⟨hc, (Option.some.inj hts).symm⟩
    · cases hts
  obtain ⟨⟨-, -, -, hmo12, -, hdm, hh23, hmi59, hs59⟩, hts'⟩ := hcond
  have hdm31 := daysInMonth_le (2000 + firstTwoVal (dfData (some df))) mo
  have hmh : matchHeader (mkHeaderLine mo d h mi s kind free) =
      some ⟨mo, d, h, mi, s, kind, free⟩ :=
    matchHeader_mkHeaderLine mo d h mi s kind free (by omega) (by omega)
      (by omega) (by omega) (by omega) hkind_ne
      (fun c hc => (hkind c hc).1) hfree_hd
  have hsplit : splitlines
      (joinLines (mkHeaderLine mo d h mi s kind free :: conts) ++
        '\n' :: rest) =
      (mkHeaderLine mo d h mi s kind free :: conts) ++ splitlines rest := by
    refine splitlines_joinLines _ rest ?_ (by simp)
    intro l hl
    rcases List.mem_cons.mp hl with rfl | hl
    · exact mkHeaderLine_no_break mo d h mi s kind free
        (fun c hc => (hkind c hc).2) hfree_nb
    · exact (hconts l hl).1
  have hne : (joinLines (mkHeaderLine mo d h mi s kind free :: conts) ++
      '\n' :: rest).isEmpty = false := by
    rw [joinLines_cons_eq, mkHeaderLine, pad2]
    simp
  rcases parseLines_conts (2000 + firstTwoVal (dfData (some df))) src ip
      (some df) conts (fun l hl => (hconts l hl).2)
      (mkEntry ts ⟨mo, d, h, mi, s, kind, free⟩ src ip (some df))
      (splitlines rest) hrest with ⟨tail, ws, heq⟩
  have hfirst : (parse_beacon_log cy
      ⟨joinLines (mkHeaderLine mo d h mi s kind free :: conts) ++
        '\n' :: rest⟩ (some df) src ip).1 =
      ({ mkEntry ts ⟨mo, d, h, mi, s, kind, free⟩ src ip (some df) with
          content :=
            (mkEntry ts ⟨mo, d, h, mi, s, kind, free⟩ src ip
              (some df)).content ++
              conts.map (fun l => (⟨l⟩ : String)) } : LogEntry) :: tail := by
    unfold parse_beacon_log
    simp only [hne, Bool.false_eq_true, if_false, hdf, if_true]
    rw [hsplit, List.cons_append]
    simp only [parseLines, hmh, hts, heq]
    rfl
  rw [hfirst]
  simp only [List.head?_cons, Option.map_some]
  subst hts'
  simp only [LogEntry.format, mkEntry, List.singleton_append]
  rw [joinLines_cons_eq]
  simp only [formatTimestamp, mkHeaderLine, flatMap_map_mkString]
  simp [pad2, List.append_assoc, flatMap_map_mkString]

/-- Witness for C2 (amended) at the concrete two-line record of the worked
example. -/
theorem render_parse_roundtrip_witness :
    ((parse_beacon_log 0
        ⟨joinLines (mkHeaderLine 8 15 10 0 1 "input".data "whoami".data ::
          ["DOMAIN\\user".data]) ++ '\n' :: []⟩
        (some "230815") "s" none).1.head?).map
        (fun e => (LogEntry.format e).data)
      = some (joinLines (mkHeaderLine 8 15 10 0 1 "input".data
          "whoami".data :: ["DOMAIN\\user".data]) ++ ['\n']) :=
  render_parse_roundtrip "230815" 0 "s" none 8 15 10 0 1 "input".data
    "whoami".data ["DOMAIN\\user".data] [] ⟨2023, 8, 15, 10, 0, 1⟩
    (by decide) (by decide) (by decide) (by decide) (by decide) (by decide)
    (by decide) (Or.inl (by decide))

end LogStriker
